import Mathlib

/-!
Verification of the lightning-flash adapter layer: base64 image deserialization,
image loaders, style-transfer configuration guards, input validation, the
regression task builder, sample loading, face-detection collation, label
indexing, and the CLI entry points.  Python dictionaries are embedded as
association lists, exceptions as `Option`/`Except`, and machine behaviour of
`binascii.a2b_base64` is modelled faithfully from its lenient decoding loop.
-/

/-- The reserved sample-dictionary keys of `flash.core.data.io.input.DataKeys`,
together with plain string keys (Python dicts mix enum and string keys). -/
inductive DataKeys where
  | input
  | target
  | metadata
  | preds
  | strKey (s : String)
deriving DecidableEq, Repr


/-- A decoded image object: `PIL.Image.open` applied to a byte buffer is kept
symbolically as the byte list it was opened on. -/
inductive ImgObj where
  | fromBytes (bs : List Nat)
deriving DecidableEq, Repr


/-- Base64 alphabet encoding of a sextet, as in RFC 4648 / `base64.b64encode`:
0–25 ↦ A–Z, 26–51 ↦ a–z, 52–61 ↦ 0–9, 62 ↦ +, 63 ↦ /. -/
def encodeChar (n : Nat) : Char :=
  if n < 26 then Char.ofNat (65 + n)
  else if n < 52 then Char.ofNat (71 + n)
  else if n < 62 then Char.ofNat (n - 4)
  else if n = 62 then '+'
  else '/'


/-- The base64 digit value of a character, `none` for characters outside the
alphabet (CPython's `table_a2b_base64`). -/
def decodeChar (c : Char) : Option Nat :=
  let n := c.toNat
  if 65 ≤ n ∧ n ≤ 90 then some (n - 65)
  else if 97 ≤ n ∧ n ≤ 122 then some (n - 71)
  else if 48 ≤ n ∧ n ≤ 57 then some (n + 4)
  else if n = 43 then some 62
  else if n = 47 then some 63
  else none


/-- `base64.b64encode`: bytes are taken three at a time into four alphabet
characters; a final group of two bytes yields three characters and one `=`,
a final single byte yields two characters and two `=`. -/
def b64encode : List Nat → List Char
  | x :: y :: z :: rest =>
      encodeChar (x / 4) :: encodeChar (x % 4 * 16 + y / 16) ::
      encodeChar (y % 16 * 4 + z / 64) :: encodeChar (z % 64) :: b64encode rest
  | [x, y] =>
      [encodeChar (x / 4), encodeChar (x % 4 * 16 + y / 16), encodeChar (y % 16 * 4), '=']
  | [x] => [encodeChar (x / 4), encodeChar (x % 4 * 16), '=', '=']
  | [] => []


/-- CPython's lenient `binascii.a2b_base64` loop (no `strict_mode`): characters
outside the alphabet are skipped; a `=` is ignored while fewer than two data
characters of the current quad have been seen, and once the quad position plus
the consecutive padding count reaches four, decoding stops successfully; data
characters are folded into bytes eagerly by quad position; leftover quad data
at the end of input is an error.  State: quad position, carried bits, and the
count of pending `=` characters. -/
def a2b_base64 : List Char → Nat → Nat → Nat → Option (List Nat)
  | [], quadPos, _, _ => if quadPos = 0 then some [] else none
  | c :: rest, quadPos, leftchar, pads =>
      if c = '=' then
        if 2 ≤ quadPos then
          if 4 ≤ quadPos + (pads + 1) then some []
          else a2b_base64 rest quadPos leftchar (pads + 1)
        else a2b_base64 rest quadPos leftchar pads
      else
        match decodeChar c with
        | none => a2b_base64 rest quadPos leftchar pads
        | some d =>
          if quadPos = 0 then a2b_base64 rest 1 d 0
          else if quadPos = 1 then
            Option.map (fun l => (leftchar * 4 + d / 16) :: l) (a2b_base64 rest 2 (d % 16) 0)
          else if quadPos = 2 then
            Option.map (fun l => (leftchar * 16 + d / 4) :: l) (a2b_base64 rest 3 (d % 4) 0)
          else
            Option.map (fun l => (leftchar * 64 + d) :: l) (a2b_base64 rest 0 0 0)


/-- `base64.b64decode` without validation: run the lenient decoder from the
initial state. -/
def b64decode (s : List Char) : Option (List Nat) :=
  a2b_base64 s 0 0 0


/-- Remove the trailing `=` padding characters of an encoded string. -/
def stripPad (s : List Char) : List Char :=
  (s.reverse.dropWhile (fun c => c = '=')).reverse


/-- `ImageDeserializer.deserialize` from `flash/image/data.py`: append `"==="`
to the payload, base64-decode it, open the resulting bytes as an image, and
return a dictionary holding that image under `DataKeys.INPUT`. -/
def ImageDeserializer.deserialize (data : List Char) : Option (List (DataKeys × ImgObj)) :=
  Option.map (fun bs => [(DataKeys.input, ImgObj.fromBytes bs)])
    (b64decode (data ++ ['=', '=', '=']))


/-- The base64 encoding without its final padding characters, chunk by chunk. -/
def encNoPad : List Nat → List Char
  | x :: y :: z :: rest =>
      encodeChar (x / 4) :: encodeChar (x % 4 * 16 + y / 16) ::
      encodeChar (y % 16 * 4 + z / 64) :: encodeChar (z % 64) :: encNoPad rest
  | [x, y] =>
      [encodeChar (x / 4), encodeChar (x % 4 * 16 + y / 16), encodeChar (y % 16 * 4)]
  | [x] => [encodeChar (x / 4), encodeChar (x % 4 * 16)]
  | [] => []


/-- `endswith` on character lists: the candidate is a suffix of the string. -/
def endswith (s suf : List Char) : Bool := decide (suf <:+ s)


/-- The supported image extensions (`torchvision.datasets.folder.IMG_EXTENSIONS`,
identical to the fallback tuple in `flash/image/data.py`). -/
def IMG_EXTENSIONS : List (List Char) :=
  [".jpg".data, ".jpeg".data, ".png".data, ".ppm".data, ".bmp".data, ".pgm".data,
    ".tif".data, ".tiff".data, ".webp".data]


/-- `NP_EXTENSIONS` from `flash/image/data.py`. -/
def NP_EXTENSIONS : List (List Char) := [".npy".data]


/-- Modelled from the spec: `has_file_allowed_extension` lives in
`flash.core.data.io.input`, which is not part of this snapshot; per the spec's
"unsupported file extension" configuration check it is the torchvision predicate
`filename.lower().endswith(tuple(extensions))`. -/
def has_file_allowed_extension (filename : List Char) (extensions : List (List Char)) : Bool :=
  extensions.any (fun ext => endswith (filename.map Char.toLower) ext)


/-- The image object returned by `image_loader`: the default PIL loader applied
to the file, or `Image.fromarray(np.load(path).astype("uint8"), "RGB")`. -/
inductive LoadedImage where
  | defaultLoad (path : List Char)
  | fromNumpyArray (path : List Char)
deriving DecidableEq, Repr


/-- The `ValueError` raised by `image_loader`: it names the offending file and
lists the supported extensions. -/
structure UnsupportedExtensionError where
  filepath : List Char
  supported : List (List Char)
deriving DecidableEq, Repr


/-- `image_loader` from `flash/image/data.py`: image extensions go through the
default loader, `.npy` files through `numpy` + `Image.fromarray`, anything else
raises `ValueError`. -/
def image_loader (filepath : List Char) : Except UnsupportedExtensionError LoadedImage :=
  if has_file_allowed_extension filepath IMG_EXTENSIONS then
    Except.ok (LoadedImage.defaultLoad filepath)
  else if has_file_allowed_extension filepath NP_EXTENSIONS then
    Except.ok (LoadedImage.fromNumpyArray filepath)
  else
    Except.error ⟨filepath, IMG_EXTENSIONS ++ NP_EXTENSIONS⟩


/-- A transform argument: `none` is Python `None`; `some m` is a dict mapping
hook names to callables (callables kept as opaque ids).  Python truthiness of
such an argument is: not `None` and not the empty dict. -/
def truthyTransform : Option (List (String × Nat)) → Bool
  | none => false
  | some m => !m.isEmpty


/-- Modelled from the spec: `raise_not_supported` (in
`flash/image/style_transfer/utils.py`, not part of this snapshot) raises a
plain exception naming the unsupported phase. -/
def raise_not_supported {α : Type} (phase : String) : Except String α :=
  Except.error phase


/-- The state a successfully constructed `StyleTransferInputTransform` holds. -/
structure StyleTransferTransformState where
  image_size : Nat × Nat
  train_transform : Option (List (String × Nat))
  val_transform : Option (List (String × Nat))
  test_transform : Option (List (String × Nat))
  predict_transform : Option (List (String × Nat))
deriving DecidableEq, Repr


/-- `StyleTransferInputTransform.__init__` from
`flash/image/style_transfer/data.py`: a truthy `val_transform` or
`test_transform` raises before any state is set up; otherwise the integer
`image_size` is squared into a pair and the transforms are stored. -/
def StyleTransferInputTransform.init
    (train_transform val_transform test_transform predict_transform :
      Option (List (String × Nat)))
    (image_size : Nat) : Except String StyleTransferTransformState :=
  if truthyTransform val_transform then raise_not_supported "validation"
  else if truthyTransform test_transform then raise_not_supported "test"
  else Except.ok ⟨(image_size, image_size), train_transform, val_transform,
    test_transform, predict_transform⟩


/-- `param in kwargs and kwargs[param] is not None`, over kwargs embedded as an
association list whose values are `none` for Python `None`. -/
def kwarg_set (kwargs : List (String × Option Nat)) (p : String) : Bool :=
  match kwargs.lookup p with
  | some v => v.isSome
  | none => false


/-- The data module `StyleTransferData.from_folders` hands to `from_input`. -/
structure StyleTransferDataModule where
  train_data : Option String
  predict_data : Option String
  input_transform : StyleTransferTransformState
  kwargs : List (String × Option Nat)
deriving DecidableEq, Repr


/-- `StyleTransferData.from_folders` from `flash/image/style_transfer/data.py`:
kwargs holding a non-`None` `val_folder`/`val_transform` raise for
"validation", then likewise `test_folder`/`test_transform` for "test";
otherwise the given (or a freshly constructed) input transform is wrapped into
a data module over the train and predict folders. -/
def StyleTransferData.from_folders
    (train_folder predict_folder : Option String)
    (train_transform predict_transform : Option (List (String × Nat)))
    (input_transform : Option StyleTransferTransformState)
    (kwargs : List (String × Option Nat)) : Except String StyleTransferDataModule :=
  if kwarg_set kwargs "val_folder" || kwarg_set kwargs "val_transform" then
    raise_not_supported "validation"
  else if kwarg_set kwargs "test_folder" || kwarg_set kwargs "test_transform" then
    raise_not_supported "test"
  else
    match input_transform with
    | some it => Except.ok ⟨train_folder, predict_folder, it, kwargs⟩
    | none =>
      match StyleTransferInputTransform.init train_transform none none predict_transform 256 with
      | Except.error e => Except.error e
      | Except.ok it => Except.ok ⟨train_folder, predict_folder, it, kwargs⟩


/-- The running stage a test `Input` is constructed with. -/
inductive RunningStage where
  | training
  | validating
  | testing
  | predicting
deriving DecidableEq, Repr


/-- The `data` attribute a constructed input ends up with: backed by a list or
by an iterator. -/
inductive DataAttr where
  | listBacked (xs : List Nat)
  | iterBacked (xs : List Nat)
deriving DecidableEq, Repr


/-- Modelled from the spec: `flash.core.data.io.input_base.Input` (absent from
this snapshot; only its tests are present) validates the `data` attribute on
construction — an iterator-backed `data` raises
`RuntimeError("Use `IterableInput` instead.")`, a list-backed one succeeds. -/
def Input.new (stage : RunningStage) (data : DataAttr) : Except String (RunningStage × DataAttr) :=
  match data with
  | DataAttr.iterBacked _ => Except.error "Use `IterableInput` instead."
  | DataAttr.listBacked _ => Except.ok (stage, data)


/-- Modelled from the spec: `flash.core.data.io.input_base.IterableInput`
(absent from this snapshot) validates dually — a list-backed `data` raises
`RuntimeError("Use `Input` instead.")`, an iterator-backed one succeeds. -/
def IterableInput.new (stage : RunningStage) (data : DataAttr) :
    Except String (RunningStage × DataAttr) :=
  match data with
  | DataAttr.listBacked _ => Except.error "Use `Input` instead."
  | DataAttr.iterBacked _ => Except.ok (stage, data)


/-- A Python argument value for `loss_fn`/`metrics`: `none` is Python `None`,
otherwise an object carrying its truthiness (containers may be empty and thus
falsy) and an identity. -/
inductive PyArg where
  | none
  | obj (truthy : Bool) (id : Nat)
deriving DecidableEq, Repr


/-- Python truthiness of a `PyArg`. -/
def PyArg.isTruthy : PyArg → Bool
  | PyArg.none => false
  | PyArg.obj t _ => t


/-- The loss function a `RegressionTask` ends up wired with. -/
inductive BuiltLoss where
  | F_mse_loss
  | given (a : PyArg)
deriving DecidableEq, Repr


/-- The metrics a `RegressionTask` ends up wired with. -/
inductive BuiltMetrics where
  | meanSquaredError
  | given (a : PyArg)
deriving DecidableEq, Repr


/-- `RegressionMixin._build` from `flash/core/Regression.py`:
`metrics = metrics or torchmetrics.MeanSquaredError()` and
`loss_fn = loss_fn or F.mse_loss`, returned as the pair `(metrics, loss_fn)`. -/
def RegressionMixin_build (loss_fn metrics : PyArg) : BuiltMetrics × BuiltLoss :=
  (if metrics.isTruthy then BuiltMetrics.given metrics else BuiltMetrics.meanSquaredError,
   if loss_fn.isTruthy then BuiltLoss.given loss_fn else BuiltLoss.F_mse_loss)


/-- The generic `Task` base as far as `RegressionTask.__init__` touches it:
it records the loss function, metrics and serializer it was handed. -/
structure TaskBase where
  loss_fn : BuiltLoss
  metrics : BuiltMetrics
  serializer : Option Nat
deriving DecidableEq, Repr


/-- `RegressionTask.__init__` from `flash/core/Regression.py`: runs
`RegressionMixin._build` on its `loss_fn`/`metrics` arguments and passes the
results (with the serializer) to the `Task` base unchanged. -/
def RegressionTask.init (loss_fn metrics : PyArg) (serializer : Option Nat) : TaskBase :=
  let built := RegressionMixin_build loss_fn metrics
  ⟨built.2, built.1, serializer⟩


/-- Python dict lookup over an association list (first match). -/
def dictGet {κ α : Type} [DecidableEq κ] : List (κ × α) → κ → Option α
  | [], _ => none
  | (k', v) :: rest, k => if k' = k then some v else dictGet rest k


/-- Python dict update `d[k] = v`: replace in place if present, else append. -/
def dictSet {κ α : Type} [DecidableEq κ] : List (κ × α) → κ → α → List (κ × α)
  | [], k, v => [(k, v)]
  | (k', v') :: rest, k, v =>
      if k' = k then (k, v) :: rest else (k', v') :: dictSet rest k v


/-- A PIL image object; its `size` attribute reports `(width, height)`. -/
structure PILImage where
  width : Nat
  height : Nat
deriving DecidableEq, Repr


/-- Metadata entries: the `"size"` pair `(height, width)` or the `"filepath"`. -/
inductive MVal where
  | size (h w : Nat)
  | filepath (p : List Char)
deriving DecidableEq, Repr


/-- Values stored under sample keys: a decoded image, a torch tensor or numpy
array (carrying the width/height its `to_pil_image` rendition has), a file
path, the metadata dict, or any other payload (targets etc.). -/
inductive SVal where
  | img (im : PILImage)
  | tensorData (w h : Nat)
  | arrayData (w h : Nat)
  | path (p : List Char)
  | meta (m : List (String × MVal))
  | other (n : Nat)
deriving DecidableEq, Repr


/-- The sample dictionary flowing through the loaders. -/
abbrev Sample : Type := List (DataKeys × SVal)


/-- Look a metadata entry up through the sample's metadata dict. -/
def metaGet (s : Sample) (key : String) : Option MVal :=
  match dictGet s DataKeys.metadata with
  | some (SVal.meta m) => dictGet m key
  | _ => none


/-- Modelled from the spec: `PathsInput.load_sample` (in
`flash.core.data.io.input`, absent from this snapshot) normalizes a path-backed
sample into the common sample dictionary — the input path is replaced by the
image the configured loader produces, and the metadata dict records the source
file path. -/
def PathsInput.load_sample (loader : List Char → Option PILImage) (sample : Sample) :
    Option Sample :=
  match dictGet sample DataKeys.input with
  | some (SVal.path p) =>
    match loader p with
    | some im =>
        some (dictSet (dictSet sample DataKeys.input (SVal.img im)) DataKeys.metadata
          (SVal.meta [("filepath", MVal.filepath p)]))
    | none => none
  | _ => none


/-- The loader `ImagePathsInput` is constructed with: `image_loader`, reading
image extensions via the default PIL loader `fs` and `.npy` files via the
numpy loader `fsNp`. -/
def imageLoaderFn (fs fsNp : List Char → PILImage) (p : List Char) : Option PILImage :=
  match image_loader p with
  | Except.ok (LoadedImage.defaultLoad _) => some (fs p)
  | Except.ok (LoadedImage.fromNumpyArray _) => some (fsNp p)
  | Except.error _ => none


/-- `ImagePathsInput.load_sample` from `flash/image/data.py`: run the
`PathsInput` loader, then read `(w, h)` from the loaded image's `size` and set
`sample[DataKeys.METADATA]["size"] = (h, w)`. -/
def ImagePathsInput.load_sample (fs fsNp : List Char → PILImage) (sample : Sample) :
    Option Sample :=
  (PathsInput.load_sample (imageLoaderFn fs fsNp) sample).bind (fun s1 =>
    match dictGet s1 DataKeys.input, dictGet s1 DataKeys.metadata with
    | some (SVal.img im), some (SVal.meta m) =>
        some (dictSet s1 DataKeys.metadata
          (SVal.meta (dictSet m "size" (MVal.size im.height im.width))))
    | _, _ => none)


/-- `ImageTensorInput.load_sample` from `flash/image/data.py`: `to_pil_image`
the input tensor, store it back, and set a fresh metadata dict whose `"size"`
is the reversed `(h, w)` of the image's `(w, h)` size. -/
def ImageTensorInput.load_sample (sample : Sample) : Option Sample :=
  match dictGet sample DataKeys.input with
  | some (SVal.tensorData w h) =>
      some (dictSet (dictSet sample DataKeys.input (SVal.img ⟨w, h⟩)) DataKeys.metadata
        (SVal.meta [("size", MVal.size h w)]))
  | _ => none


/-- `ImageNumpyInput.load_sample` from `flash/image/data.py`: as the tensor
input, after `torch.from_numpy`. -/
def ImageNumpyInput.load_sample (sample : Sample) : Option Sample :=
  match dictGet sample DataKeys.input with
  | some (SVal.arrayData w h) =>
      some (dictSet (dictSet sample DataKeys.input (SVal.img ⟨w, h⟩)) DataKeys.metadata
        (SVal.meta [("size", MVal.size h w)]))
  | _ => none


/-- `ImageFiftyOneInput.load_sample` from `flash/image/data.py`: load the image
from the input path via `image_default_loader` (`fs`), store it under the input
key, and set metadata to `{"filepath": path, "size": (h, w)}`. -/
def ImageFiftyOneInput.load_sample (fs : List Char → PILImage) (sample : Sample) :
    Option Sample :=
  match dictGet sample DataKeys.input with
  | some (SVal.path p) =>
      let im := fs p
      some (dictSet (dictSet sample DataKeys.input (SVal.img im)) DataKeys.metadata
        (SVal.meta [("filepath", MVal.filepath p), ("size", MVal.size im.height im.width)]))
  | _ => none


/-- `FastFaceInput.load_sample` from `flash/image/face_detection/data.py`: the
same shape — load from the filepath, store the image, record `filepath` and the
reversed `size` in a fresh metadata dict. -/
def FastFaceInput.load_sample (fs : List Char → PILImage) (sample : Sample) :
    Option Sample :=
  match dictGet sample DataKeys.input with
  | some (SVal.path p) =>
      let im := fs p
      some (dictSet (dictSet sample DataKeys.input (SVal.img im)) DataKeys.metadata
        (SVal.meta [("filepath", MVal.filepath p), ("size", MVal.size im.height im.width)]))
  | _ => none


/-- The returned sample holds a decoded image under the input key whose
`(height, width)` — the reverse of the image's `(width, height)` size — is the
metadata `"size"` entry. -/
def sizeRecorded (out : Sample) : Prop :=
  ∃ im : PILImage, dictGet out DataKeys.input = some (SVal.img im) ∧
    metaGet out "size" = some (MVal.size im.height im.width)


/-- The source file path of the input sample is recorded under the metadata
key `"filepath"`. -/
def filepathRecorded (s out : Sample) : Prop :=
  ∃ p : List Char, dictGet s DataKeys.input = some (SVal.path p) ∧
    metaGet out "filepath" = some (MVal.filepath p)


/-- A hashable label value as used for dict keys after `.item()` conversion. -/
inductive Label where
  | i (n : Int)
  | s (st : String)
deriving DecidableEq, Repr


/-- A sample's target as `_labels_to_indices` sees it: a one-element tensor
(`torch.is_tensor` holds, compared by its `.item()` scalar), a plain integer,
or a string. -/
inductive TargetVal where
  | scalarTensor (v : Int)
  | intVal (v : Int)
  | strVal (st : String)
deriving DecidableEq, Repr


/-- `label = sample[DataKeys.TARGET]; if torch.is_tensor(label): label = label.item()`. -/
def labelOf : TargetVal → Label
  | TargetVal.scalarTensor v => Label.i v
  | TargetVal.intVal v => Label.i v
  | TargetVal.strVal st => Label.s st


/-- `out[label].append(idx)` on a `defaultdict(list)`: append to the existing
entry, or create a fresh singleton entry at the end. -/
def addIdx : List (Label × List Nat) → Label → Nat → List (Label × List Nat)
  | [], l, i => [(l, [i])]
  | (l', xs) :: rest, l, i =>
      if l' = l then (l', xs ++ [i]) :: rest else (l', xs) :: addIdx rest l i


/-- The loop of `_labels_to_indices` from `flash/image/data.py`, carrying the
running enumeration index; a sample without a target key raises (`none`). -/
def labelsToIndicesAux : List (List (DataKeys × TargetVal)) → Nat →
    List (Label × List Nat) → Option (List (Label × List Nat))
  | [], _, out => some out
  | s :: rest, idx, out =>
    match dictGet s DataKeys.target with
    | some t => labelsToIndicesAux rest (idx + 1) (addIdx out (labelOf t) idx)
    | none => none


/-- `_labels_to_indices(data)` from `flash/image/data.py`. -/
def labels_to_indices (data : List (List (DataKeys × TargetVal))) :
    Option (List (Label × List Nat)) :=
  labelsToIndicesAux data 0 []


/-- The list of indices recorded under a label (empty if the label is absent). -/
def listFor (l : Label) (out : List (Label × List Nat)) : List Nat :=
  (dictGet out l).getD []


/-- The label of a sample's target entry, when present. -/
def targetLabel (s : List (DataKeys × TargetVal)) : Option Label :=
  (dictGet s DataKeys.target).map labelOf


/-- The enumeration indices (starting at `idx`) of the samples whose target
label is `l`. -/
def indicesOfFrom (l : Label) : List (List (DataKeys × TargetVal)) → Nat → List Nat
  | [], _ => []
  | s :: rest, idx =>
    if targetLabel s = some l then idx :: indicesOfFrom l rest (idx + 1)
    else indicesOfFrom l rest (idx + 1)


/-- A bounding-box row `(x1, y1, x2, y2)` of a target-boxes tensor. -/
structure FFBox where
  x1 : Int
  y1 : Int
  x2 : Int
  y2 : Int
deriving DecidableEq, Repr


/-- `target_boxes *= scale`: every coordinate is multiplied. -/
def scaleBox (s : Int) (b : FFBox) : FFBox :=
  ⟨b.x1 * s, b.y1 * s, b.x2 * s, b.y2 * s⟩


/-- `target_boxes[:, [0, 2]] += padding[0]; target_boxes[:, [1, 3]] += padding[1]`. -/
def padBox (px py : Int) (b : FFBox) : FFBox :=
  ⟨b.x1 + px, b.y1 + py, b.x2 + px, b.y2 + py⟩


/-- A box first multiplied by the scale, then translated by the padding. -/
def transformBox (s px py : Int) (b : FFBox) : FFBox :=
  padBox px py (scaleBox s b)


/-- Values in face-detection samples and in the collated batch dictionary. -/
inductive FVal where
  | img (id : Nat)
  | batch (ids : List Nat)
  | boxes (bs : List FFBox)
  | dict (m : List (String × FVal))
  | scaleV (s : Int)
  | padV (px py : Int)
  | listV (xs : List FVal)
  | other (n : Nat)


/-- A face-detection sample dictionary. -/
abbrev FSample : Type := List (DataKeys × FVal)


/-- `[sample[key] for sample in samples]`: the column of a key's values; a
sample missing the key raises (`none`). -/
def columnOf : List FSample → DataKeys → Option (List FVal)
  | [], _ => some []
  | s :: rest, k =>
    match dictGet s k, columnOf rest k with
    | some v, some vs => some (v :: vs)
    | _, _ => none


/-- `{key: [sample[key] for sample in samples] for key in samples[0]}`,
iterating the first sample's keys. -/
def colsFor (samples : List FSample) : List DataKeys → Option (List (DataKeys × FVal))
  | [] => some []
  | k :: ks =>
    match columnOf samples k, colsFor samples ks with
    | some vs, some rest => some ((k, FVal.listV vs) :: rest)
    | _, _ => none


/-- `{"target_boxes": target["boxes"]}`: rekey one target dict. -/
def rekeyTarget : FVal → Option FVal
  | FVal.dict m =>
    match dictGet m "boxes" with
    | some v => some (FVal.dict [("target_boxes", v)])
    | none => none
  | _ => none


/-- `[{"target_boxes": target["boxes"]} for target in targets]`. -/
def rekeyTargets : List FVal → Option (List FVal)
  | [] => some []
  | t :: ts =>
    match rekeyTarget t, rekeyTargets ts with
    | some t', some ts' => some (t' :: ts')
    | _, _ => none


/-- Scale then pad one rekeyed target's `target_boxes` tensor in place. -/
def transformTarget (sc : Int) (pd : Int × Int) : FVal → Option FVal
  | FVal.dict m =>
    match dictGet m "target_boxes" with
    | some (FVal.boxes bs) =>
        some (FVal.dict (dictSet m "target_boxes"
          (FVal.boxes (bs.map (transformBox sc pd.1 pd.2)))))
    | _ => none
  | _ => none


/-- `for i, (target, scale, padding) in enumerate(zip(targets, scales,
paddings))`: the zip truncates at the shortest list, leaving any remaining
targets untouched. -/
def transformTargets : List FVal → List Int → List (Int × Int) → Option (List FVal)
  | t :: ts, sc :: ss, pd :: ps =>
      match transformTarget sc pd t, transformTargets ts ss ps with
      | some t', some ts' => some (t' :: ts')
      | _, _ => none
  | ts, _, _ => some ts


/-- `fastface_collate_fn` from `flash/image/face_detection/data.py`, with the
external `ff.utils.preprocess.prepare_batch` supplied as `prepare`, returning
the prepared image batch, the per-sample scales, and the per-sample paddings.
An empty batch raises (`samples[0]`), as does a sample missing a key of the
first sample or a target without `"boxes"`. -/
def fastface_collate_fn
    (prepare : List FVal → List Nat × List Int × List (Int × Int))
    (samples : List FSample) : Option (List (DataKeys × FVal)) :=
  match samples with
  | [] => none
  | s0 :: _ =>
    match colsFor samples (s0.map Prod.fst) with
    | none => none
    | some cols =>
      match dictGet cols DataKeys.input with
      | some (FVal.listV inputs) =>
        let images := (prepare inputs).1
        let scales := (prepare inputs).2.1
        let paddings := (prepare inputs).2.2
        let cols2 := dictSet (dictSet cols (DataKeys.strKey "scales")
            (FVal.listV (scales.map FVal.scaleV))) (DataKeys.strKey "paddings")
          (FVal.listV (paddings.map (fun p => FVal.padV p.1 p.2)))
        match dictGet cols2 DataKeys.target with
        | some (FVal.listV targets) =>
          match rekeyTargets targets with
          | none => none
          | some targets1 =>
            match transformTargets targets1 scales paddings with
            | none => none
            | some targets2 =>
                some (dictSet (dictSet cols2 DataKeys.target (FVal.listV targets2))
                  DataKeys.input (FVal.batch images))
        | some _ => none
        | none => some (dictSet cols2 DataKeys.input (FVal.batch images))
      | _ => none


/-- A concrete `prepare_batch` stand-in for exercising the collate function. -/
def ffPrep : List FVal → List Nat × List Int × List (Int × Int) :=
  fun _ => ([100], [2, 3], [(10, 20), (30, 40)])


/-- A concrete two-sample face-detection batch. -/
def ffSamples : List FSample :=
  [[(DataKeys.input, FVal.img 10), (DataKeys.target, FVal.dict
      [("boxes", FVal.boxes [⟨1, 2, 3, 4⟩]), ("labels", FVal.other 1)])],
   [(DataKeys.input, FVal.img 11), (DataKeys.target, FVal.dict
      [("boxes", FVal.boxes [⟨5, 6, 7, 8⟩]), ("labels", FVal.other 1)])]]


/-- The collated batch of `ffSamples` under `ffPrep`. -/
def ffOut : List (DataKeys × FVal) :=
  [(DataKeys.input, FVal.batch [100]),
   (DataKeys.target, FVal.listV
      [FVal.dict [("target_boxes", FVal.boxes [⟨12, 24, 16, 28⟩])],
       FVal.dict [("target_boxes", FVal.boxes [⟨45, 58, 51, 64⟩])]]),
   (DataKeys.strKey "scales", FVal.listV [FVal.scaleV 2, FVal.scaleV 3]),
   (DataKeys.strKey "paddings", FVal.listV [FVal.padV 10 20, FVal.padV 30 40])]


/-- An observable effect of a CLI entry point. -/
inductive CLIEffect where
  | download (source : String)
  | buildDataModule (builder : String)
  | fit
  | saveCheckpoint (path : String)
deriving DecidableEq, Repr


/-- The keyword interface of a datamodule builder: the parameters it names,
and the keys its trailing `**kwargs` forwarding is accepted for. -/
structure BuilderSig where
  params : List String
  kwargs_accepted : List String
deriving DecidableEq, Repr


/-- A builder accepts a keyword if it names it or its forwarding target does. -/
def BuilderSig.accepts (sig : BuilderSig) (k : String) : Bool :=
  sig.params.contains k || sig.kwargs_accepted.contains k


/-- `from_biwi` from `flash/image/keypoint_detection/cli.py` names `val_split`,
`image_size` and `parser`; its `**data_module_kwargs` reach
`KeypointDetectionData.from_folders` and the generic data module.  Modelled
from the spec: that constructor (absent from this snapshot) takes batch size,
worker count and sampler keywords — and no backbone name. -/
def from_biwi_sig : BuilderSig :=
  ⟨["val_split", "image_size", "parser"], ["batch_size", "num_workers", "sampler"]⟩


/-- `from_squad` from `flash/text/question_answering/cli.py` names `backbone`,
`batch_size` and `num_workers`; its `**input_transform_kwargs` are transform
keyword options (modelled from the spec by representative keys). -/
def from_squad_sig : BuilderSig :=
  ⟨["backbone", "batch_size", "num_workers"], ["max_source_length", "max_answer_length"]⟩


/-- `from_biwi`: `icedata.biwi.load_data()` fetches the fixed BIWI archive and
`KeypointDetectionData.from_folders` builds the data module. -/
def from_biwi_trace : List CLIEffect :=
  [CLIEffect.download "icedata.biwi.load_data",
   CLIEffect.buildDataModule "KeypointDetectionData.from_folders"]


/-- `from_squad`: `download_data` fetches the fixed squad_tiny archive and
`QuestionAnsweringData.from_squad_v2` builds the data module. -/
def from_squad_trace : List CLIEffect :=
  [CLIEffect.download "https://pl-flash-data.s3.amazonaws.com/squad_tiny.zip",
   CLIEffect.buildDataModule "QuestionAnsweringData.from_squad_v2"]


/-- `keypoint_detection()`: the `FlashCLI` run (default datamodule builder,
then training through the externally supplied trainer) followed by
`cli.trainer.save_checkpoint("keypoint_detection_model.pt")`. -/
def keypoint_detection_trace : List CLIEffect :=
  from_biwi_trace ++ [CLIEffect.fit, CLIEffect.saveCheckpoint "keypoint_detection_model.pt"]


/-- `question_answering()`: the `FlashCLI` run followed by
`cli.trainer.save_checkpoint("question_answering_model.pt")`. -/
def question_answering_trace : List CLIEffect :=
  from_squad_trace ++ [CLIEffect.fit, CLIEffect.saveCheckpoint "question_answering_model.pt"]


theorem decode_encodeChar {n : Nat} (h : n < 64) : decodeChar (encodeChar n) = some n := by
  revert h; revert n; decide


theorem encodeChar_ne_pad {n : Nat} (h : n < 64) : encodeChar n ≠ '=' := by
  revert h; revert n; decide


theorem a2b_quad_step {x y z : Nat} (hx : x < 256) (hy : y < 256) (hz : z < 256)
    (tail : List Char) :
    a2b_base64 (encodeChar (x / 4) :: encodeChar (x % 4 * 16 + y / 16) ::
        encodeChar (y % 16 * 4 + z / 64) :: encodeChar (z % 64) :: tail) 0 0 0 =
      Option.map (fun l => x :: y :: z :: l) (a2b_base64 tail 0 0 0) := by
  have h1 : x / 4 < 64 := by omega
  have h2 : x % 4 * 16 + y / 16 < 64 := by omega
  have h3 : y % 16 * 4 + z / 64 < 64 := by omega
  have h4 : z % 64 < 64 := by omega
  simp only [a2b_base64, encodeChar_ne_pad h1, encodeChar_ne_pad h2, encodeChar_ne_pad h3,
    encodeChar_ne_pad h4, decode_encodeChar h1, decode_encodeChar h2, decode_encodeChar h3,
    decode_encodeChar h4, reduceIte, if_false, Option.map_map, Nat.reduceEqDiff,
    OfNat.ofNat_ne_zero, one_ne_zero]
  cases h : a2b_base64 tail 0 0 0 with
  | none => simp
  | some l =>
    simp only [Option.map_some', Option.some.injEq, Function.comp_apply, List.cons.injEq]
    exact ⟨by omega, by omega, by omega, trivial⟩


theorem a2b_two_step {x y : Nat} (hx : x < 256) (hy : y < 256) (tail : List Char) :
    a2b_base64 (encodeChar (x / 4) :: encodeChar (x % 4 * 16 + y / 16) ::
        encodeChar (y % 16 * 4) :: '=' :: tail) 0 0 0 = some [x, y] := by
  have h1 : x / 4 < 64 := by omega
  have h2 : x % 4 * 16 + y / 16 < 64 := by omega
  have h3 : y % 16 * 4 < 64 := by omega
  simp only [a2b_base64, encodeChar_ne_pad h1, encodeChar_ne_pad h2, encodeChar_ne_pad h3,
    decode_encodeChar h1, decode_encodeChar h2, decode_encodeChar h3, reduceIte, if_false,
    Nat.reduceEqDiff, Nat.reduceLeDiff, Nat.reduceAdd, one_ne_zero, OfNat.ofNat_ne_zero,
    Option.map_some', Option.some.injEq, List.cons.injEq]
  exact ⟨by omega, by omega, trivial⟩


theorem a2b_one_step {x : Nat} (hx : x < 256) (tail : List Char) :
    a2b_base64 (encodeChar (x / 4) :: encodeChar (x % 4 * 16) :: '=' :: '=' :: tail) 0 0 0 =
      some [x] := by
  have h1 : x / 4 < 64 := by omega
  have h2 : x % 4 * 16 < 64 := by omega
  simp only [a2b_base64, encodeChar_ne_pad h1, encodeChar_ne_pad h2,
    decode_encodeChar h1, decode_encodeChar h2, reduceIte, if_false,
    Nat.reduceEqDiff, Nat.reduceLeDiff, Nat.reduceAdd, one_ne_zero, OfNat.ofNat_ne_zero,
    Option.map_some', Option.some.injEq, List.cons.injEq]
  exact ⟨by omega, trivial⟩


theorem a2b_encode_padded : ∀ (b : List Nat), (∀ a ∈ b, a < 256) →
    a2b_base64 (b64encode b ++ ['=', '=', '=']) 0 0 0 = some b
  | [], _ => rfl
  | [x], h => by
    have hx : x < 256 := h x (by simp)
    simpa [b64encode] using a2b_one_step hx ['=', '=', '=']
  | [x, y], h => by
    have hx : x < 256 := h x (by simp)
    have hy : y < 256 := h y (by simp)
    simpa [b64encode] using a2b_two_step hx hy ['=', '=', '=']
  | x :: y :: z :: rest, h => by
    have hx : x < 256 := h x (by simp)
    have hy : y < 256 := h y (by simp)
    have hz : z < 256 := h z (by simp)
    have ih := a2b_encode_padded rest (fun a ha => h a (by simp [ha]))
    rw [b64encode]
    simp only [List.cons_append, a2b_quad_step hx hy hz, ih, Option.map_some']


theorem a2b_encNoPad_padded : ∀ (b : List Nat), (∀ a ∈ b, a < 256) →
    a2b_base64 (encNoPad b ++ ['=', '=', '=']) 0 0 0 = some b
  | [], _ => rfl
  | [x], h => by
    have hx : x < 256 := h x (by simp)
    simpa [encNoPad] using a2b_one_step hx ['=']
  | [x, y], h => by
    have hx : x < 256 := h x (by simp)
    have hy : y < 256 := h y (by simp)
    simpa [encNoPad] using a2b_two_step hx hy ['=', '=']
  | x :: y :: z :: rest, h => by
    have hx : x < 256 := h x (by simp)
    have hy : y < 256 := h y (by simp)
    have hz : z < 256 := h z (by simp)
    have ih := a2b_encNoPad_padded rest (fun a ha => h a (by simp [ha]))
    rw [encNoPad]
    simp only [List.cons_append, a2b_quad_step hx hy hz, ih, Option.map_some']


theorem encNoPad_ne_nil : ∀ {b : List Nat}, b ≠ [] → encNoPad b ≠ [] := by
  intro b hb
  match b with
  | [x] => simp [encNoPad]
  | [x, y] => simp [encNoPad]
  | x :: y :: z :: rest => simp [encNoPad]


theorem dropWhile_reverse_b64encode : ∀ (b : List Nat),
    (b64encode b).reverse.dropWhile (fun c => c = '=') = (encNoPad b).reverse
  | [] => rfl
  | [x] => by
    have h2 : x % 4 * 16 < 64 := by omega
    simp [b64encode, encNoPad, List.dropWhile, encodeChar_ne_pad h2]
  | [x, y] => by
    have h3 : y % 16 * 4 < 64 := by omega
    simp [b64encode, encNoPad, List.dropWhile, encodeChar_ne_pad h3]
  | x :: y :: z :: rest => by
    have h4 : z % 64 < 64 := by omega
    have ih := dropWhile_reverse_b64encode rest
    rw [b64encode, encNoPad]
    cases hr : rest with
    | nil =>
      simp [b64encode, encNoPad, List.dropWhile, encodeChar_ne_pad h4]
    | cons a t =>
      have hne : encNoPad rest ≠ [] := encNoPad_ne_nil (by simp [hr])
      rw [← hr]
      simp only [List.reverse_cons, List.append_assoc]
      have : (b64encode rest).reverse ++
          ([encodeChar (z % 64)] ++ ([encodeChar (y % 16 * 4 + z / 64)] ++
            ([encodeChar (x % 4 * 16 + y / 16)] ++ [encodeChar (x / 4)]))) =
          (b64encode rest).reverse ++ [encodeChar (z % 64), encodeChar (y % 16 * 4 + z / 64),
            encodeChar (x % 4 * 16 + y / 16), encodeChar (x / 4)] := by simp
      rw [this, List.dropWhile_append, ih]
      simp [List.isEmpty_iff, hne]


theorem stripPad_b64encode (b : List Nat) : stripPad (b64encode b) = encNoPad b := by
  rw [stripPad, dropWhile_reverse_b64encode, List.reverse_reverse]


/-- C1: For every byte string `b`, `ImageDeserializer.deserialize` applied to the
base64 encoding of `b` — even with the encoding's trailing `=` padding removed —
returns a mapping whose `DataKeys.INPUT` entry holds the image decoded from
exactly the bytes `b`; the appended `"==="` corrects any missing padding without
altering the decoded payload, including when the input was already padded. -/
theorem C1_deserialize_base64_roundtrip (b : List Nat) (h : ∀ a ∈ b, a < 256) :
    ImageDeserializer.deserialize (stripPad (b64encode b)) =
      some [(DataKeys.input, ImgObj.fromBytes b)] ∧
    ImageDeserializer.deserialize (b64encode b) =
      some [(DataKeys.input, ImgObj.fromBytes b)] := by
  constructor
  · rw [ImageDeserializer.deserialize, stripPad_b64encode, b64decode, a2b_encNoPad_padded b h]
    rfl
  · rw [ImageDeserializer.deserialize, b64decode, a2b_encode_padded b h]
    rfl


theorem C1_deserialize_base64_roundtrip_witness :
    (∀ a ∈ [104, 101, 108, 108, 111], a < 256) ∧
    (ImageDeserializer.deserialize (stripPad (b64encode [104, 101, 108, 108, 111])) =
      some [(DataKeys.input, ImgObj.fromBytes [104, 101, 108, 108, 111])] ∧
    ImageDeserializer.deserialize (b64encode [104, 101, 108, 108, 111]) =
      some [(DataKeys.input, ImgObj.fromBytes [104, 101, 108, 108, 111])]) :=
  ⟨by decide, C1_deserialize_base64_roundtrip [104, 101, 108, 108, 111] (by decide)⟩


theorem np_not_img {s : List Char} (h : has_file_allowed_extension s NP_EXTENSIONS = true) :
    has_file_allowed_extension s IMG_EXTENSIONS = false := by
  simp only [has_file_allowed_extension, NP_EXTENSIONS, endswith, List.any_cons, List.any_nil,
    Bool.or_false, decide_eq_true_eq] at h
  simp only [has_file_allowed_extension, IMG_EXTENSIONS, endswith, List.any_eq_false,
    decide_eq_true_eq]
  intro e he hsuf
  have hd := List.suffix_or_suffix_of_suffix hsuf h
  fin_cases he <;> revert hd <;> decide


/-- C2: `image_loader` raises a `ValueError` naming the file and listing the
supported extensions if and only if the filepath's extension is in neither
`IMG_EXTENSIONS` nor `NP_EXTENSIONS` as decided by `has_file_allowed_extension`;
a supported extension returns an image without raising, `.npy` files through the
numpy array path and image extensions through the default image loader. -/
theorem C2_image_loader_extensions (filepath : List Char) :
    ((∃ e, image_loader filepath = Except.error e) ↔
      (has_file_allowed_extension filepath IMG_EXTENSIONS = false ∧
       has_file_allowed_extension filepath NP_EXTENSIONS = false)) ∧
    (∀ e, image_loader filepath = Except.error e →
      e.filepath = filepath ∧ e.supported = IMG_EXTENSIONS ++ NP_EXTENSIONS) ∧
    (has_file_allowed_extension filepath NP_EXTENSIONS = true →
      image_loader filepath = Except.ok (LoadedImage.fromNumpyArray filepath)) ∧
    (has_file_allowed_extension filepath IMG_EXTENSIONS = true →
      image_loader filepath = Except.ok (LoadedImage.defaultLoad filepath)) := by
  refine ⟨⟨?_, ?_⟩, ?_, ?_, ?_⟩
  · rintro ⟨e, he⟩
    by_cases h1 : has_file_allowed_extension filepath IMG_EXTENSIONS = true
    · simp [image_loader, h1] at he
    · by_cases h2 : has_file_allowed_extension filepath NP_EXTENSIONS = true
      · simp [image_loader, h1, h2] at he
      · exact ⟨by simpa using h1, by simpa using h2⟩
  · rintro ⟨h1, h2⟩
    refine ⟨⟨filepath, IMG_EXTENSIONS ++ NP_EXTENSIONS⟩, ?_⟩
    simp [image_loader, h1, h2]
  · intro e he
    by_cases h1 : has_file_allowed_extension filepath IMG_EXTENSIONS = true
    · simp [image_loader, h1] at he
    · by_cases h2 : has_file_allowed_extension filepath NP_EXTENSIONS = true
      · simp [image_loader, h1, h2] at he
      · simp only [image_loader, h1, h2, Bool.not_eq_true, Bool.false_eq_true, if_false,
          Except.error.injEq] at he
        rw [← he]
        exact ⟨rfl, rfl⟩
  · intro h2
    simp [image_loader, np_not_img h2, h2]
  · intro h1
    simp [image_loader, h1]


theorem C2_image_loader_extensions_witness :
    has_file_allowed_extension "img.JPG".data IMG_EXTENSIONS = true ∧
    image_loader "img.JPG".data = Except.ok (LoadedImage.defaultLoad "img.JPG".data) :=
  ⟨by decide, (C2_image_loader_extensions "img.JPG".data).2.2.2 (by decide)⟩


/-- C3 counterexample: supplying a validation transform that is an *empty*
dict (non-`None`, hence "supplied") does not raise — the guard is Python
truthiness, so construction succeeds and state is set up. -/
theorem C3_empty_val_transform_accepted :
    StyleTransferInputTransform.init none (some []) none none 256 =
      Except.ok ⟨(256, 256), none, some [], none, none⟩ := rfl


/-- C3 (amended): constructing a `StyleTransferInputTransform` with a truthy
(non-empty, non-`None`) validation or test transform raises via
`raise_not_supported` before any state is set up, and
`StyleTransferData.from_folders` raises whenever its kwargs contain a
non-`None` `val_folder`, `val_transform`, `test_folder` or `test_transform`;
in every such case no transform object or data module is constructed. -/
theorem C3_style_transfer_rejects_val_test
    (tt vt tst pt : Option (List (String × Nat))) (sz : Nat)
    (tf pf : Option String) (it : Option StyleTransferTransformState)
    (kwargs : List (String × Option Nat)) :
    (truthyTransform vt = true →
      StyleTransferInputTransform.init tt vt tst pt sz = Except.error "validation") ∧
    (truthyTransform vt = false → truthyTransform tst = true →
      StyleTransferInputTransform.init tt vt tst pt sz = Except.error "test") ∧
    ((kwarg_set kwargs "val_folder" || kwarg_set kwargs "val_transform") = true →
      StyleTransferData.from_folders tf pf tt pt it kwargs = Except.error "validation") ∧
    ((kwarg_set kwargs "val_folder" || kwarg_set kwargs "val_transform") = false →
      (kwarg_set kwargs "test_folder" || kwarg_set kwargs "test_transform") = true →
      StyleTransferData.from_folders tf pf tt pt it kwargs = Except.error "test") := by
  refine ⟨?_, ?_, ?_, ?_⟩
  · intro hv
    simp [StyleTransferInputTransform.init, hv, raise_not_supported]
  · intro hv ht
    simp [StyleTransferInputTransform.init, hv, ht, raise_not_supported]
  · intro hk
    simp [StyleTransferData.from_folders, hk, raise_not_supported]
  · intro hk1 hk2
    simp [StyleTransferData.from_folders, hk1, hk2, raise_not_supported]


theorem C3_style_transfer_rejects_val_test_witness :
    truthyTransform (some [("to_tensor_transform", 0)]) = true ∧
    StyleTransferInputTransform.init none (some [("to_tensor_transform", 0)]) none none 256 =
      Except.error "validation" :=
  ⟨by decide,
    (C3_style_transfer_rejects_val_test none (some [("to_tensor_transform", 0)]) none none
      256 none none none []).1 (by decide)⟩


/-- C4: constructing an `Input` whose data attribute is an iterator raises
`RuntimeError("Use `IterableInput` instead.")` while a list-backed one
succeeds; conversely an `IterableInput` with list-backed data raises
`RuntimeError("Use `Input` instead.")` while an iterator-backed one succeeds. -/
theorem C4_input_validation (stage : RunningStage) (xs : List Nat) :
    Input.new stage (DataAttr.iterBacked xs) = Except.error "Use `IterableInput` instead." ∧
    Input.new stage (DataAttr.listBacked xs) = Except.ok (stage, DataAttr.listBacked xs) ∧
    IterableInput.new stage (DataAttr.listBacked xs) = Except.error "Use `Input` instead." ∧
    IterableInput.new stage (DataAttr.iterBacked xs) =
      Except.ok (stage, DataAttr.iterBacked xs) :=
  ⟨rfl, rfl, rfl, rfl⟩


/-- C5: every `RegressionTask` construction (equivalently each
`RegressionMixin._build` call) wires `F.mse_loss` when `loss_fn` is `None`,
a `MeanSquaredError` metric when `metrics` is `None`, and passes any truthy
caller-supplied `loss_fn`/`metrics` through to the `Task` base unchanged. -/
theorem C5_regression_defaults (loss_fn metrics : PyArg) (serializer : Option Nat) :
    (RegressionTask.init loss_fn metrics serializer).loss_fn =
        (RegressionMixin_build loss_fn metrics).2 ∧
    (RegressionTask.init loss_fn metrics serializer).metrics =
        (RegressionMixin_build loss_fn metrics).1 ∧
    (RegressionTask.init loss_fn metrics serializer).serializer = serializer ∧
    (loss_fn = PyArg.none →
      (RegressionMixin_build loss_fn metrics).2 = BuiltLoss.F_mse_loss) ∧
    (metrics = PyArg.none →
      (RegressionMixin_build loss_fn metrics).1 = BuiltMetrics.meanSquaredError) ∧
    (loss_fn.isTruthy = true →
      (RegressionMixin_build loss_fn metrics).2 = BuiltLoss.given loss_fn) ∧
    (metrics.isTruthy = true →
      (RegressionMixin_build loss_fn metrics).1 = BuiltMetrics.given metrics) := by
  refine ⟨rfl, rfl, rfl, ?_, ?_, ?_, ?_⟩
  · rintro rfl; rfl
  · rintro rfl; simp [RegressionMixin_build, PyArg.isTruthy]
  · intro h; simp [RegressionMixin_build, h]
  · intro h; simp [RegressionMixin_build, h]


theorem C5_regression_defaults_witness :
    ((PyArg.none = PyArg.none) ∧
      (RegressionMixin_build PyArg.none (PyArg.obj true 7)).2 = BuiltLoss.F_mse_loss) ∧
    ((PyArg.obj true 7).isTruthy = true ∧
      (RegressionMixin_build PyArg.none (PyArg.obj true 7)).1 =
        BuiltMetrics.given (PyArg.obj true 7)) :=
  ⟨⟨rfl, (C5_regression_defaults PyArg.none (PyArg.obj true 7) Option.none).2.2.2.1 rfl⟩,
    ⟨by decide, (C5_regression_defaults PyArg.none (PyArg.obj true 7)
      Option.none).2.2.2.2.2.2 (by decide)⟩⟩


theorem dictGet_set_self {κ α : Type} [DecidableEq κ] (d : List (κ × α)) (k : κ) (v : α) :
    dictGet (dictSet d k v) k = some v := by
  induction d with
  | nil => simp [dictGet, dictSet]
  | cons p rest ih =>
    by_cases h : p.1 = k <;> simp [dictGet, dictSet, h, ih]


theorem dictGet_set_ne {κ α : Type} [DecidableEq κ] (d : List (κ × α)) (k k' : κ) (v : α)
    (h : k' ≠ k) : dictGet (dictSet d k v) k' = dictGet d k' := by
  have h' : ¬ k = k' := fun e => h e.symm
  induction d with
  | nil => simp [dictGet, dictSet, h']
  | cons p rest ih =>
    by_cases hh : p.1 = k
    · simp [dictGet, dictSet, hh, h']
    · simp [dictGet, dictSet, hh, ih]


theorem tensor_load_char {s out : Sample} (h : ImageTensorInput.load_sample s = some out) :
    ∃ w ht, dictGet s DataKeys.input = some (SVal.tensorData w ht) ∧
      out = dictSet (dictSet s DataKeys.input (SVal.img ⟨w, ht⟩)) DataKeys.metadata
        (SVal.meta [("size", MVal.size ht w)]) := by
  cases hg : dictGet s DataKeys.input with
  | none => simp [ImageTensorInput.load_sample, hg] at h
  | some v =>
    cases v <;> simp [ImageTensorInput.load_sample, hg] at h
    case tensorData w ht => exact ⟨w, ht, rfl, h.symm⟩


theorem numpy_load_char {s out : Sample} (h : ImageNumpyInput.load_sample s = some out) :
    ∃ w ht, dictGet s DataKeys.input = some (SVal.arrayData w ht) ∧
      out = dictSet (dictSet s DataKeys.input (SVal.img ⟨w, ht⟩)) DataKeys.metadata
        (SVal.meta [("size", MVal.size ht w)]) := by
  cases hg : dictGet s DataKeys.input with
  | none => simp [ImageNumpyInput.load_sample, hg] at h
  | some v =>
    cases v <;> simp [ImageNumpyInput.load_sample, hg] at h
    case arrayData w ht => exact ⟨w, ht, rfl, h.symm⟩


theorem fiftyone_load_char {fs : List Char → PILImage} {s out : Sample}
    (h : ImageFiftyOneInput.load_sample fs s = some out) :
    ∃ p, dictGet s DataKeys.input = some (SVal.path p) ∧
      out = dictSet (dictSet s DataKeys.input (SVal.img (fs p))) DataKeys.metadata
        (SVal.meta [("filepath", MVal.filepath p),
          ("size", MVal.size (fs p).height (fs p).width)]) := by
  cases hg : dictGet s DataKeys.input with
  | none => simp [ImageFiftyOneInput.load_sample, hg] at h
  | some v =>
    cases v <;> simp [ImageFiftyOneInput.load_sample, hg] at h
    case path p => exact ⟨p, rfl, h.symm⟩


theorem fastface_load_char {fs : List Char → PILImage} {s out : Sample}
    (h : FastFaceInput.load_sample fs s = some out) :
    ∃ p, dictGet s DataKeys.input = some (SVal.path p) ∧
      out = dictSet (dictSet s DataKeys.input (SVal.img (fs p))) DataKeys.metadata
        (SVal.meta [("filepath", MVal.filepath p),
          ("size", MVal.size (fs p).height (fs p).width)]) := by
  cases hg : dictGet s DataKeys.input with
  | none => simp [FastFaceInput.load_sample, hg] at h
  | some v =>
    cases v <;> simp [FastFaceInput.load_sample, hg] at h
    case path p => exact ⟨p, rfl, h.symm⟩


theorem pathsInput_load_char {loader : List Char → Option PILImage} {s s1 : Sample}
    (h : PathsInput.load_sample loader s = some s1) :
    ∃ p im, dictGet s DataKeys.input = some (SVal.path p) ∧ loader p = some im ∧
      s1 = dictSet (dictSet s DataKeys.input (SVal.img im)) DataKeys.metadata
        (SVal.meta [("filepath", MVal.filepath p)]) := by
  cases hg : dictGet s DataKeys.input with
  | none => simp [PathsInput.load_sample, hg] at h
  | some v =>
    cases v <;> simp [PathsInput.load_sample, hg] at h
    case path p =>
      cases hl : loader p with
      | none => rw [hl] at h; cases h
      | some im =>
        rw [hl] at h
        simp only [Option.some.injEq] at h
        exact ⟨p, im, rfl, hl, h.symm⟩


theorem imagePaths_load_char {fs fsNp : List Char → PILImage} {s out : Sample}
    (h : ImagePathsInput.load_sample fs fsNp s = some out) :
    ∃ p im, dictGet s DataKeys.input = some (SVal.path p) ∧
      imageLoaderFn fs fsNp p = some im ∧
      out = dictSet (dictSet (dictSet s DataKeys.input (SVal.img im)) DataKeys.metadata
          (SVal.meta [("filepath", MVal.filepath p)])) DataKeys.metadata
        (SVal.meta [("filepath", MVal.filepath p),
          ("size", MVal.size im.height im.width)]) := by
  unfold ImagePathsInput.load_sample at h
  cases hp : PathsInput.load_sample (imageLoaderFn fs fsNp) s with
  | none => rw [hp] at h; cases h
  | some s1 =>
    rw [hp, Option.some_bind] at h
    obtain ⟨p, im, hg, hl, hs1⟩ := pathsInput_load_char hp
    have hin : dictGet s1 DataKeys.input = some (SVal.img im) := by
      rw [hs1, dictGet_set_ne _ _ _ _ (by simp), dictGet_set_self]
    have hmd : dictGet s1 DataKeys.metadata =
        some (SVal.meta [("filepath", MVal.filepath p)]) := by
      rw [hs1, dictGet_set_self]
    rw [hin, hmd] at h
    simp only [Option.some.injEq] at h
    refine ⟨p, im, hg, hl, ?_⟩
    rw [← h, hs1]
    have : dictSet [("filepath", MVal.filepath p)] "size"
        (MVal.size im.height im.width) =
        [("filepath", MVal.filepath p), ("size", MVal.size im.height im.width)] := by
      simp [dictSet]
    rw [this]


theorem metaGet_setMeta (s : Sample) (m : List (String × MVal)) (k : String) :
    metaGet (dictSet s DataKeys.metadata (SVal.meta m)) k = dictGet m k := by
  unfold metaGet
  rw [dictGet_set_self]


theorem dictGet_input_after_meta (s : Sample) (m : SVal) :
    dictGet (dictSet s DataKeys.metadata m) DataKeys.input = dictGet s DataKeys.input :=
  dictGet_set_ne _ _ _ _ (by decide)


/-- C6: each `load_sample` of `ImagePathsInput`, `ImageTensorInput`,
`ImageNumpyInput`, `ImageFiftyOneInput` and `FastFaceInput` returns a mapping
holding a decoded image under the input key whose metadata `"size"` entry is
the `(height, width)` reversal of the image's `(width, height)` size;
`ImageFiftyOneInput` and `FastFaceInput` additionally record the source file
path under the metadata key `"filepath"`. -/
theorem C6_load_sample_records_size (fs fsNp : List Char → PILImage) (s out : Sample) :
    (ImagePathsInput.load_sample fs fsNp s = some out → sizeRecorded out) ∧
    (ImageTensorInput.load_sample s = some out → sizeRecorded out) ∧
    (ImageNumpyInput.load_sample s = some out → sizeRecorded out) ∧
    (ImageFiftyOneInput.load_sample fs s = some out →
      sizeRecorded out ∧ filepathRecorded s out) ∧
    (FastFaceInput.load_sample fs s = some out →
      sizeRecorded out ∧ filepathRecorded s out) := by
  refine ⟨?_, ?_, ?_, ?_, ?_⟩
  · intro h
    obtain ⟨p, im, hg, hl, ho⟩ := imagePaths_load_char h
    subst ho
    refine ⟨im, ?_, ?_⟩
    · rw [dictGet_input_after_meta, dictGet_input_after_meta, dictGet_set_self]
    · rw [metaGet_setMeta]; simp [dictGet]
  · intro h
    obtain ⟨w, ht, hg, ho⟩ := tensor_load_char h
    subst ho
    refine ⟨⟨w, ht⟩, ?_, ?_⟩
    · rw [dictGet_input_after_meta, dictGet_set_self]
    · rw [metaGet_setMeta]; simp [dictGet]
  · intro h
    obtain ⟨w, ht, hg, ho⟩ := numpy_load_char h
    subst ho
    refine ⟨⟨w, ht⟩, ?_, ?_⟩
    · rw [dictGet_input_after_meta, dictGet_set_self]
    · rw [metaGet_setMeta]; simp [dictGet]
  · intro h
    obtain ⟨p, hg, ho⟩ := fiftyone_load_char h
    subst ho
    refine ⟨⟨fs p, ?_, ?_⟩, ⟨p, hg, ?_⟩⟩
    · rw [dictGet_input_after_meta, dictGet_set_self]
    · rw [metaGet_setMeta]; simp [dictGet]
    · rw [metaGet_setMeta]; simp [dictGet]
  · intro h
    obtain ⟨p, hg, ho⟩ := fastface_load_char h
    subst ho
    refine ⟨⟨fs p, ?_, ?_⟩, ⟨p, hg, ?_⟩⟩
    · rw [dictGet_input_after_meta, dictGet_set_self]
    · rw [metaGet_setMeta]; simp [dictGet]
    · rw [metaGet_setMeta]; simp [dictGet]


theorem C6_load_sample_records_size_witness :
    FastFaceInput.load_sample (fun _ => ⟨5, 7⟩)
        [(DataKeys.input, SVal.path "a.jpg".data), (DataKeys.target, SVal.other 3)] =
      some [(DataKeys.input, SVal.img ⟨5, 7⟩), (DataKeys.target, SVal.other 3),
        (DataKeys.metadata, SVal.meta [("filepath", MVal.filepath "a.jpg".data),
          ("size", MVal.size 7 5)])] ∧
    (sizeRecorded [(DataKeys.input, SVal.img ⟨5, 7⟩), (DataKeys.target, SVal.other 3),
        (DataKeys.metadata, SVal.meta [("filepath", MVal.filepath "a.jpg".data),
          ("size", MVal.size 7 5)])] ∧
      filepathRecorded
        [(DataKeys.input, SVal.path "a.jpg".data), (DataKeys.target, SVal.other 3)]
        [(DataKeys.input, SVal.img ⟨5, 7⟩), (DataKeys.target, SVal.other 3),
          (DataKeys.metadata, SVal.meta [("filepath", MVal.filepath "a.jpg".data),
            ("size", MVal.size 7 5)])]) :=
  ⟨rfl, (C6_load_sample_records_size (fun _ => ⟨5, 7⟩) (fun _ => ⟨5, 7⟩)
    [(DataKeys.input, SVal.path "a.jpg".data), (DataKeys.target, SVal.other 3)]
    [(DataKeys.input, SVal.img ⟨5, 7⟩), (DataKeys.target, SVal.other 3),
      (DataKeys.metadata, SVal.meta [("filepath", MVal.filepath "a.jpg".data),
        ("size", MVal.size 7 5)])]).2.2.2.2 rfl⟩


/-- C10: every `load_sample` of the image and face-detection inputs changes
only the input key and the metadata key of the sample it is given: any other
key — in particular the target key — maps to an unchanged value in the
returned mapping. -/
theorem C10_load_sample_frame (fs fsNp : List Char → PILImage) (s out : Sample)
    (k : DataKeys) (hk1 : k ≠ DataKeys.input) (hk2 : k ≠ DataKeys.metadata) :
    (ImagePathsInput.load_sample fs fsNp s = some out → dictGet out k = dictGet s k) ∧
    (ImageTensorInput.load_sample s = some out → dictGet out k = dictGet s k) ∧
    (ImageNumpyInput.load_sample s = some out → dictGet out k = dictGet s k) ∧
    (ImageFiftyOneInput.load_sample fs s = some out → dictGet out k = dictGet s k) ∧
    (FastFaceInput.load_sample fs s = some out → dictGet out k = dictGet s k) := by
  refine ⟨?_, ?_, ?_, ?_, ?_⟩
  · intro h
    obtain ⟨p, im, hg, hl, ho⟩ := imagePaths_load_char h
    subst ho
    rw [dictGet_set_ne _ _ _ _ hk2, dictGet_set_ne _ _ _ _ hk2, dictGet_set_ne _ _ _ _ hk1]
  · intro h
    obtain ⟨w, ht, hg, ho⟩ := tensor_load_char h
    subst ho
    rw [dictGet_set_ne _ _ _ _ hk2, dictGet_set_ne _ _ _ _ hk1]
  · intro h
    obtain ⟨w, ht, hg, ho⟩ := numpy_load_char h
    subst ho
    rw [dictGet_set_ne _ _ _ _ hk2, dictGet_set_ne _ _ _ _ hk1]
  · intro h
    obtain ⟨p, hg, ho⟩ := fiftyone_load_char h
    subst ho
    rw [dictGet_set_ne _ _ _ _ hk2, dictGet_set_ne _ _ _ _ hk1]
  · intro h
    obtain ⟨p, hg, ho⟩ := fastface_load_char h
    subst ho
    rw [dictGet_set_ne _ _ _ _ hk2, dictGet_set_ne _ _ _ _ hk1]


theorem C10_load_sample_frame_witness :
    (DataKeys.target ≠ DataKeys.input ∧ DataKeys.target ≠ DataKeys.metadata) ∧
    ImageTensorInput.load_sample
        [(DataKeys.input, SVal.tensorData 4 6), (DataKeys.target, SVal.other 9)] =
      some [(DataKeys.input, SVal.img ⟨4, 6⟩), (DataKeys.target, SVal.other 9),
        (DataKeys.metadata, SVal.meta [("size", MVal.size 6 4)])] ∧
    dictGet [(DataKeys.input, SVal.img ⟨4, 6⟩), (DataKeys.target, SVal.other 9),
        (DataKeys.metadata, SVal.meta [("size", MVal.size 6 4)])] DataKeys.target =
      dictGet [(DataKeys.input, SVal.tensorData 4 6), (DataKeys.target, SVal.other 9)]
        DataKeys.target :=
  ⟨⟨by decide, by decide⟩, rfl,
    (C10_load_sample_frame (fun _ => ⟨1, 1⟩) (fun _ => ⟨1, 1⟩)
      [(DataKeys.input, SVal.tensorData 4 6), (DataKeys.target, SVal.other 9)]
      [(DataKeys.input, SVal.img ⟨4, 6⟩), (DataKeys.target, SVal.other 9),
        (DataKeys.metadata, SVal.meta [("size", MVal.size 6 4)])]
      DataKeys.target (by decide) (by decide)).2.1 rfl⟩


theorem listFor_addIdx (out : List (Label × List Nat)) (lab l : Label) (i : Nat) :
    listFor l (addIdx out lab i) =
      if l = lab then listFor l out ++ [i] else listFor l out := by
  induction out with
  | nil =>
    by_cases h : l = lab
    · subst h; simp [addIdx, listFor, dictGet]
    · simp [addIdx, listFor, dictGet, h, Ne.symm h]
  | cons p rest ih =>
    obtain ⟨l', xs⟩ := p
    by_cases h1 : l' = lab
    · subst h1
      by_cases h2 : l' = l
      · subst h2; simp [addIdx, listFor, dictGet]
      · simp [addIdx, listFor, dictGet, h2, Ne.symm h2]
    · by_cases h2 : l' = l
      · subst h2
        simp [addIdx, listFor, dictGet, h1, Ne.symm h1]
      · simp only [addIdx, listFor, dictGet, if_neg h1, if_neg h2]
        simpa [listFor] using ih


theorem indicesOfFrom_cons (l : Label) (s0 : List (DataKeys × TargetVal))
    (rest : List (List (DataKeys × TargetVal))) (idx : Nat) :
    indicesOfFrom l (s0 :: rest) idx =
      if targetLabel s0 = some l then idx :: indicesOfFrom l rest (idx + 1)
      else indicesOfFrom l rest (idx + 1) := rfl


theorem labelsToIndicesAux_char : ∀ (data : List (List (DataKeys × TargetVal)))
    (idx : Nat) (out res : List (Label × List Nat)),
    labelsToIndicesAux data idx out = some res →
    ∀ l, listFor l res = listFor l out ++ indicesOfFrom l data idx
  | [], idx, out, res, h, l => by
    simp only [labelsToIndicesAux, Option.some.injEq] at h
    subst h
    simp [indicesOfFrom]
  | s :: rest, idx, out, res, h, l => by
    cases ht : dictGet s DataKeys.target with
    | none => simp [labelsToIndicesAux, ht] at h
    | some t =>
      simp only [labelsToIndicesAux, ht] at h
      have hrec := labelsToIndicesAux_char rest (idx + 1) _ res h l
      have hts : targetLabel s = some (labelOf t) := by simp [targetLabel, ht]
      rw [hrec, listFor_addIdx, indicesOfFrom_cons, hts]
      by_cases hl : l = labelOf t
      · subst hl; simp
      · simp [hl, Ne.symm hl]


theorem mem_indicesOfFrom_of_get {l : Label} :
    ∀ (data : List (List (DataKeys × TargetVal))) (i : Nat)
      (s : List (DataKeys × TargetVal)) (idx : Nat),
    data.get? i = some s → targetLabel s = some l → idx + i ∈ indicesOfFrom l data idx
  | [], i, s, idx, h, _ => by simp at h
  | s0 :: rest, 0, s, idx, h, hl => by
    simp only [List.get?_cons_zero, Option.some.injEq] at h
    subst h
    simp [indicesOfFrom, hl]
  | s0 :: rest, i + 1, s, idx, h, hl => by
    simp only [List.get?_cons_succ] at h
    have hmem := mem_indicesOfFrom_of_get rest i s (idx + 1) h hl
    have harith : idx + (i + 1) = idx + 1 + i := by omega
    unfold indicesOfFrom
    by_cases h0 : targetLabel s0 = some l <;> simp [h0, harith, hmem]


theorem exists_of_mem_indicesOfFrom {l : Label} :
    ∀ (data : List (List (DataKeys × TargetVal))) (idx j : Nat),
    j ∈ indicesOfFrom l data idx →
    ∃ k s, data.get? k = some s ∧ targetLabel s = some l ∧ j = idx + k
  | [], idx, j, h => by simp [indicesOfFrom] at h
  | s0 :: rest, idx, j, h => by
    unfold indicesOfFrom at h
    by_cases h0 : targetLabel s0 = some l
    · rw [if_pos h0] at h
      rcases List.mem_cons.mp h with rfl | hmem
      · exact ⟨0, s0, by simp, h0, by omega⟩
      · obtain ⟨k, s, hg, hls, hj⟩ := exists_of_mem_indicesOfFrom rest (idx + 1) j hmem
        exact ⟨k + 1, s, by simpa using hg, hls, by omega⟩
    · rw [if_neg h0] at h
      obtain ⟨k, s, hg, hls, hj⟩ := exists_of_mem_indicesOfFrom rest (idx + 1) j h
      exact ⟨k + 1, s, by simpa using hg, hls, by omega⟩


theorem indicesOfFrom_ge {l : Label} :
    ∀ (data : List (List (DataKeys × TargetVal))) (idx j : Nat),
    j ∈ indicesOfFrom l data idx → idx ≤ j := by
  intro data idx j h
  obtain ⟨k, s, _, _, hj⟩ := exists_of_mem_indicesOfFrom data idx j h
  omega


theorem indicesOfFrom_pairwise {l : Label} :
    ∀ (data : List (List (DataKeys × TargetVal))) (idx : Nat),
    List.Pairwise (· < ·) (indicesOfFrom l data idx)
  | [], idx => by simp [indicesOfFrom]
  | s0 :: rest, idx => by
    have htail := indicesOfFrom_pairwise (l := l) rest (idx + 1)
    unfold indicesOfFrom
    by_cases h0 : targetLabel s0 = some l
    · rw [if_pos h0]
      refine List.Pairwise.cons ?_ htail
      intro j hj
      have := indicesOfFrom_ge rest (idx + 1) j hj
      omega
    · rw [if_neg h0]
      exact htail


/-- C9: for samples each carrying a target label, every index into the
sequence occurs exactly once over all lists of `_labels_to_indices`' result,
namely in the list of the label equal to its sample's target (one-element
tensor targets compared by their scalar value), and each label's list of
indices is strictly increasing. -/
theorem C9_labels_to_indices_partition (data : List (List (DataKeys × TargetVal)))
    (res : List (Label × List Nat)) (h : labels_to_indices data = some res) :
    (∀ i s t, data.get? i = some s → dictGet s DataKeys.target = some t →
      (i ∈ listFor (labelOf t) res ∧ ∀ l, l ≠ labelOf t → i ∉ listFor l res)) ∧
    (∀ l xs, dictGet res l = some xs → List.Pairwise (· < ·) xs) := by
  have hchar : ∀ l, listFor l res = indicesOfFrom l data 0 := by
    intro l
    have := labelsToIndicesAux_char data 0 [] res h l
    simpa [listFor, dictGet] using this
  constructor
  · intro i s t hg ht
    have hts : targetLabel s = some (labelOf t) := by simp [targetLabel, ht]
    constructor
    · rw [hchar]
      simpa using mem_indicesOfFrom_of_get data i s 0 hg hts
    · intro l hne hmem
      rw [hchar] at hmem
      obtain ⟨k, s', hg', hts', hj⟩ := exists_of_mem_indicesOfFrom data 0 i hmem
      have hk : k = i := by omega
      subst hk
      rw [hg] at hg'
      injection hg' with hg'
      subst hg'
      rw [hts] at hts'
      injection hts' with hts'
      exact hne hts'.symm
  · intro l xs hxs
    have hx : xs = indicesOfFrom l data 0 := by
      have hcl := hchar l
      rw [listFor, hxs] at hcl
      simpa using hcl
    rw [hx]
    exact indicesOfFrom_pairwise data 0


theorem C9_labels_to_indices_partition_witness :
    labels_to_indices
        [[(DataKeys.target, TargetVal.intVal 1)],
         [(DataKeys.target, TargetVal.scalarTensor 2)],
         [(DataKeys.target, TargetVal.intVal 1)]] =
      some [(Label.i 1, [0, 2]), (Label.i 2, [1])] ∧
    (2 ∈ listFor (labelOf (TargetVal.intVal 1))
        [(Label.i 1, [0, 2]), (Label.i 2, [1])] ∧
      ∀ l, l ≠ labelOf (TargetVal.intVal 1) →
        2 ∉ listFor l [(Label.i 1, [0, 2]), (Label.i 2, [1])]) :=
  ⟨rfl, (C9_labels_to_indices_partition
      [[(DataKeys.target, TargetVal.intVal 1)],
       [(DataKeys.target, TargetVal.scalarTensor 2)],
       [(DataKeys.target, TargetVal.intVal 1)]]
      [(Label.i 1, [0, 2]), (Label.i 2, [1])] rfl).1 2
      [(DataKeys.target, TargetVal.intVal 1)] (TargetVal.intVal 1) rfl rfl⟩


theorem dictGet_eq_none_of_not_mem {κ α : Type} [DecidableEq κ]
    {d : List (κ × α)} {k : κ} (h : k ∉ d.map Prod.fst) : dictGet d k = none := by
  induction d with
  | nil => rfl
  | cons p rest ih =>
    simp only [List.map_cons, List.mem_cons] at h
    push_neg at h
    have h1 : ¬ p.1 = k := fun e => h.1 e.symm
    simp [dictGet, h1, ih h.2]


theorem columnOf_none_of_head_missing {s0 : FSample} {rest : List FSample} {k : DataKeys}
    (h : dictGet s0 k = none) : columnOf (s0 :: rest) k = none := by
  simp [columnOf, h]


theorem colsFor_spec {samples : List FSample} :
    ∀ {keys : List DataKeys} {cols : List (DataKeys × FVal)},
    colsFor samples keys = some cols →
    ∀ k, dictGet cols k =
      if k ∈ keys then Option.map FVal.listV (columnOf samples k) else none
  | [], cols, h, k => by
    simp only [colsFor, Option.some.injEq] at h
    subst h
    simp [dictGet]
  | k0 :: ks, cols, h, k => by
    cases hc : columnOf samples k0 with
    | none => simp [colsFor, hc] at h
    | some vs0 =>
      cases hr : colsFor samples ks with
      | none => simp [colsFor, hc, hr] at h
      | some rest' =>
        simp only [colsFor, hc, hr, Option.some.injEq] at h
        subst h
        by_cases hk : k0 = k
        · subst hk
          simp [dictGet, hc]
        · have hik := colsFor_spec hr k
          simp [dictGet, hk, hik, Ne.symm hk, List.mem_cons]


theorem columnOf_get :
    ∀ {samples : List FSample} {k : DataKeys} {vs : List FVal},
    columnOf samples k = some vs →
    vs.length = samples.length ∧
      ∀ j s, samples.get? j = some s → vs.get? j = dictGet s k
  | [], k, vs, h => by
    simp only [columnOf, Option.some.injEq] at h
    subst h
    exact ⟨rfl, fun j s hj => by simp at hj⟩
  | s0 :: rest, k, vs, h => by
    cases hg : dictGet s0 k with
    | none => simp [columnOf, hg] at h
    | some v =>
      cases hc : columnOf rest k with
      | none => simp [columnOf, hg, hc] at h
      | some vs' =>
        simp only [columnOf, hg, hc, Option.some.injEq] at h
        subst h
        obtain ⟨hlen, hget⟩ := columnOf_get hc
        refine ⟨by simp [hlen], ?_⟩
        intro j s hj
        cases j with
        | zero =>
          simp only [List.get?_cons_zero, Option.some.injEq] at hj
          subst hj
          simp [hg]
        | succ j =>
          simp only [List.get?_cons_succ] at hj ⊢
          exact hget j s hj


theorem rekeyTargets_get :
    ∀ {ts ts1 : List FVal}, rekeyTargets ts = some ts1 →
    ∀ j t, ts.get? j = some t →
      ∃ t1, ts1.get? j = some t1 ∧ rekeyTarget t = some t1
  | [], ts1, h, j, t, hj => by simp at hj
  | t0 :: ts, ts1, h, j, t, hj => by
    cases h0 : rekeyTarget t0 with
    | none => simp [rekeyTargets, h0] at h
    | some t0' =>
      cases hrest : rekeyTargets ts with
      | none => simp [rekeyTargets, h0, hrest] at h
      | some ts' =>
        simp only [rekeyTargets, h0, hrest, Option.some.injEq] at h
        subst h
        cases j with
        | zero =>
          simp only [List.get?_cons_zero, Option.some.injEq] at hj
          subst hj
          exact ⟨t0', by simp, h0⟩
        | succ j =>
          simp only [List.get?_cons_succ] at hj ⊢
          exact rekeyTargets_get hrest j t hj


theorem transformTargets_get :
    ∀ {ts : List FVal} {ss : List Int} {ps : List (Int × Int)} {ts2 : List FVal},
    transformTargets ts ss ps = some ts2 →
    ∀ j t sc pd, ts.get? j = some t → ss.get? j = some sc → ps.get? j = some pd →
      ∃ t2, ts2.get? j = some t2 ∧ transformTarget sc pd t = some t2
  | [], ss, ps, ts2, h, j, t, sc, pd, hj, hs, hp => by simp at hj
  | t0 :: ts, [], ps, ts2, h, j, t, sc, pd, hj, hs, hp => by simp at hs
  | t0 :: ts, s0 :: ss, [], ts2, h, j, t, sc, pd, hj, hs, hp => by simp at hp
  | t0 :: ts, s0 :: ss, p0 :: ps, ts2, h, j, t, sc, pd, hj, hs, hp => by
    cases h0 : transformTarget s0 p0 t0 with
    | none => simp [transformTargets, h0] at h
    | some t0' =>
      cases hrest : transformTargets ts ss ps with
      | none => simp [transformTargets, h0, hrest] at h
      | some ts' =>
        simp only [transformTargets, h0, hrest, Option.some.injEq] at h
        subst h
        cases j with
        | zero =>
          simp only [List.get?_cons_zero, Option.some.injEq] at hj hs hp
          subst hj; subst hs; subst hp
          exact ⟨t0', by simp, h0⟩
        | succ j =>
          simp only [List.get?_cons_succ] at hj hs hp ⊢
          exact transformTargets_get hrest j t sc pd hj hs hp


theorem rekey_then_transform {t t1 t2 : FVal} {sc : Int} {pd : Int × Int}
    (h1 : rekeyTarget t = some t1) (h2 : transformTarget sc pd t1 = some t2) :
    ∃ m bs, t = FVal.dict m ∧ dictGet m "boxes" = some (FVal.boxes bs) ∧
      t2 = FVal.dict [("target_boxes",
        FVal.boxes (bs.map (transformBox sc pd.1 pd.2)))] := by
  cases t with
  | dict m =>
    cases hb : dictGet m "boxes" with
    | none => simp [rekeyTarget, hb] at h1
    | some v =>
      simp only [rekeyTarget, hb, Option.some.injEq] at h1
      subst h1
      cases v with
      | boxes bs =>
        refine ⟨m, bs, rfl, hb, ?_⟩
        simp only [transformTarget, dictGet, if_pos rfl, if_true, Option.some.injEq] at h2
        rw [← h2]
        simp [dictSet]
      | img i => simp [transformTarget, dictGet] at h2
      | batch i => simp [transformTarget, dictGet] at h2
      | dict mm => simp [transformTarget, dictGet] at h2
      | scaleV s => simp [transformTarget, dictGet] at h2
      | padV a b => simp [transformTarget, dictGet] at h2
      | listV xs => simp [transformTarget, dictGet] at h2
      | other n => simp [transformTarget, dictGet] at h2
  | img i => simp [rekeyTarget] at h1
  | batch i => simp [rekeyTarget] at h1
  | boxes bs => simp [rekeyTarget] at h1
  | scaleV s => simp [rekeyTarget] at h1
  | padV a b => simp [rekeyTarget] at h1
  | listV xs => simp [rekeyTarget] at h1
  | other n => simp [rekeyTarget] at h1


theorem mem_keys_of_dictGet {κ α : Type} [DecidableEq κ] {d : List (κ × α)} {k : κ} {v : α}
    (h : dictGet d k = some v) : k ∈ d.map Prod.fst := by
  induction d with
  | nil => simp [dictGet] at h
  | cons p rest ih =>
    by_cases hp : p.1 = k
    · simp [hp]
    · rw [dictGet, if_neg hp] at h
      simp [ih h]


theorem column_from_cols {samples : List FSample} {keys : List DataKeys}
    {cols : List (DataKeys × FVal)} (hcf : colsFor samples keys = some cols)
    {k : DataKeys} {xs : List FVal}
    (h : dictGet cols k = some (FVal.listV xs)) : columnOf samples k = some xs := by
  have hs := colsFor_spec hcf k
  rw [h] at hs
  by_cases hm : k ∈ keys
  · rw [if_pos hm] at hs
    cases hc : columnOf samples k with
    | none => rw [hc] at hs; cases hs
    | some c =>
      rw [hc] at hs
      simp only [Option.map_some', Option.some.injEq, FVal.listV.injEq] at hs
      rw [hs]
  · rw [if_neg hm] at hs; cases hs


theorem colsFor_column_isSome {samples : List FSample} :
    ∀ {keys : List DataKeys} {cols : List (DataKeys × FVal)},
    colsFor samples keys = some cols →
    ∀ k ∈ keys, ∃ vs, columnOf samples k = some vs
  | [], cols, _, k, hk => by simp at hk
  | k0 :: ks, cols, h, k, hk => by
    cases hc : columnOf samples k0 with
    | none => simp [colsFor, hc] at h
    | some vs0 =>
      cases hr : colsFor samples ks with
      | none => simp [colsFor, hc, hr] at h
      | some rest' =>
        rcases List.mem_cons.mp hk with rfl | hk2
        · exact ⟨vs0, hc⟩
        · exact colsFor_column_isSome hr k hk2


/-- C8: for every non-empty batch accepted by `fastface_collate_fn`, the result
maps each key of the first sample to the list of that key's values across
samples, with the input key replaced by the prepared image batch and
`"scales"`/`"paddings"` entries added; and when the target key is present, each
sample's target boxes are first multiplied by that sample's scale and then
translated by its padding — `padding[0]` added to the x-coordinates (columns 0
and 2), `padding[1]` to the y-coordinates (columns 1 and 3) — each target being
rekeyed to a mapping holding only `"target_boxes"`. -/
theorem C8_fastface_collate
    (prepare : List FVal → List Nat × List Int × List (Int × Int))
    (samples : List FSample) (out : List (DataKeys × FVal))
    (hcol : fastface_collate_fn prepare samples = some out) :
    (∀ k vs, columnOf samples k = some vs → vs.length = samples.length ∧
      ∀ j s, samples.get? j = some s → vs.get? j = dictGet s k) ∧
    ∃ s0 rest inputs, samples = s0 :: rest ∧
      columnOf samples DataKeys.input = some inputs ∧
      dictGet out DataKeys.input = some (FVal.batch (prepare inputs).1) ∧
      dictGet out (DataKeys.strKey "scales") =
        some (FVal.listV ((prepare inputs).2.1.map FVal.scaleV)) ∧
      dictGet out (DataKeys.strKey "paddings") =
        some (FVal.listV ((prepare inputs).2.2.map (fun p => FVal.padV p.1 p.2))) ∧
      (∀ k, k ≠ DataKeys.input → k ≠ DataKeys.target →
        k ≠ DataKeys.strKey "scales" → k ≠ DataKeys.strKey "paddings" →
        dictGet out k = Option.map FVal.listV (columnOf samples k)) ∧
      (∀ v0, dictGet s0 DataKeys.target = some v0 →
        ∃ targets targets2, columnOf samples DataKeys.target = some targets ∧
          dictGet out DataKeys.target = some (FVal.listV targets2) ∧
          ∀ j t sc pd, targets.get? j = some t →
            (prepare inputs).2.1.get? j = some sc →
            (prepare inputs).2.2.get? j = some pd →
            ∃ m bs, t = FVal.dict m ∧ dictGet m "boxes" = some (FVal.boxes bs) ∧
              targets2.get? j = some (FVal.dict [("target_boxes",
                FVal.boxes (bs.map (transformBox sc pd.1 pd.2)))])) := by
  refine ⟨fun k vs h => columnOf_get h, ?_⟩
  cases samples with
  | nil => simp [fastface_collate_fn] at hcol
  | cons s0 rest =>
    cases hcf : colsFor (s0 :: rest) (s0.map Prod.fst) with
    | none => simp [fastface_collate_fn, hcf] at hcol
    | some cols =>
      cases hci : dictGet cols DataKeys.input with
      | none => simp [fastface_collate_fn, hcf, hci] at hcol
      | some vin =>
        cases vin <;> simp only [fastface_collate_fn, hcf, hci] at hcol
        all_goals try (exact absurd hcol (by simp))
        case listV inputs =>
        have hcolin : columnOf (s0 :: rest) DataKeys.input = some inputs :=
          column_from_cols hcf hci
        have hct : dictGet (dictSet (dictSet cols (DataKeys.strKey "scales")
            (FVal.listV ((prepare inputs).2.1.map FVal.scaleV))) (DataKeys.strKey "paddings")
            (FVal.listV ((prepare inputs).2.2.map (fun p => FVal.padV p.1 p.2))))
            DataKeys.target = dictGet cols DataKeys.target := by
          rw [dictGet_set_ne _ _ _ _ (by decide), dictGet_set_ne _ _ _ _ (by decide)]
        cases hcT : dictGet cols DataKeys.target with
        | none =>
          rw [hct, hcT] at hcol
          simp only [Option.some.injEq] at hcol
          subst hcol
          refine ⟨s0, rest, inputs, rfl, hcolin, ?_, ?_, ?_, ?_, ?_⟩
          · rw [dictGet_set_self]
          · rw [dictGet_set_ne _ _ _ _ (by decide), dictGet_set_ne _ _ _ _ (by decide),
              dictGet_set_self]
          · rw [dictGet_set_ne _ _ _ _ (by decide), dictGet_set_self]
          · intro k hk1 hk2 hk3 hk4
            rw [dictGet_set_ne _ _ _ _ hk1, dictGet_set_ne _ _ _ _ hk4,
              dictGet_set_ne _ _ _ _ hk3, colsFor_spec hcf k]
            by_cases hm : k ∈ s0.map Prod.fst
            · rw [if_pos hm]
            · rw [if_neg hm,
                columnOf_none_of_head_missing (dictGet_eq_none_of_not_mem hm)]
              rfl
          · intro v0 hv0
            exfalso
            obtain ⟨vs, hvs⟩ :=
              colsFor_column_isSome hcf DataKeys.target (mem_keys_of_dictGet hv0)
            have hsp := colsFor_spec hcf DataKeys.target
            rw [hcT, if_pos (mem_keys_of_dictGet hv0), hvs] at hsp
            simp at hsp
        | some vt =>
          rw [hct, hcT] at hcol
          cases vt <;> try (simp at hcol)
          case listV targets =>
          cases hrk : rekeyTargets targets with
          | none => simp only [hrk] at hcol; cases hcol
          | some targets1 =>
            simp only [hrk] at hcol
            cases htr : transformTargets targets1 (prepare inputs).2.1
                (prepare inputs).2.2 with
            | none => simp only [htr] at hcol; cases hcol
            | some targets2 =>
              simp only [htr] at hcol
              simp only [Option.some.injEq] at hcol
              subst hcol
              have hcolt : columnOf (s0 :: rest) DataKeys.target = some targets :=
                column_from_cols hcf hcT
              refine ⟨s0, rest, inputs, rfl, hcolin, ?_, ?_, ?_, ?_, ?_⟩
              · rw [dictGet_set_self]
              · rw [dictGet_set_ne _ _ _ _ (by decide), dictGet_set_ne _ _ _ _ (by decide),
                  dictGet_set_ne _ _ _ _ (by decide), dictGet_set_self]
              · rw [dictGet_set_ne _ _ _ _ (by decide), dictGet_set_ne _ _ _ _ (by decide),
                  dictGet_set_self]
              · intro k hk1 hk2 hk3 hk4
                rw [dictGet_set_ne _ _ _ _ hk1, dictGet_set_ne _ _ _ _ hk2,
                  dictGet_set_ne _ _ _ _ hk4, dictGet_set_ne _ _ _ _ hk3,
                  colsFor_spec hcf k]
                by_cases hm : k ∈ s0.map Prod.fst
                · rw [if_pos hm]
                · rw [if_neg hm,
                    columnOf_none_of_head_missing (dictGet_eq_none_of_not_mem hm)]
                  rfl
              · intro v0 hv0
                refine ⟨targets, targets2, hcolt, ?_, ?_⟩
                · rw [dictGet_set_ne _ _ _ _ (by decide), dictGet_set_self]
                · intro j t sc pd hj hs hp
                  obtain ⟨t1, hj1, hr1⟩ := rekeyTargets_get hrk j t hj
                  obtain ⟨t2, hj2, ht2⟩ := transformTargets_get htr j t1 sc pd hj1 hs hp
                  obtain ⟨m, bs, htm, hbx, ht2e⟩ := rekey_then_transform hr1 ht2
                  exact ⟨m, bs, htm, hbx, by rw [hj2, ht2e]⟩


theorem C8_fastface_collate_witness :
    fastface_collate_fn ffPrep ffSamples = some ffOut ∧
    ((∀ k vs, columnOf ffSamples k = some vs → vs.length = ffSamples.length ∧
      ∀ j s, ffSamples.get? j = some s → vs.get? j = dictGet s k) ∧
    ∃ s0 rest inputs, ffSamples = s0 :: rest ∧
      columnOf ffSamples DataKeys.input = some inputs ∧
      dictGet ffOut DataKeys.input = some (FVal.batch (ffPrep inputs).1) ∧
      dictGet ffOut (DataKeys.strKey "scales") =
        some (FVal.listV ((ffPrep inputs).2.1.map FVal.scaleV)) ∧
      dictGet ffOut (DataKeys.strKey "paddings") =
        some (FVal.listV ((ffPrep inputs).2.2.map (fun p => FVal.padV p.1 p.2))) ∧
      (∀ k, k ≠ DataKeys.input → k ≠ DataKeys.target →
        k ≠ DataKeys.strKey "scales" → k ≠ DataKeys.strKey "paddings" →
        dictGet ffOut k = Option.map FVal.listV (columnOf ffSamples k)) ∧
      (∀ v0, dictGet s0 DataKeys.target = some v0 →
        ∃ targets targets2, columnOf ffSamples DataKeys.target = some targets ∧
          dictGet ffOut DataKeys.target = some (FVal.listV targets2) ∧
          ∀ j t sc pd, targets.get? j = some t →
            (ffPrep inputs).2.1.get? j = some sc →
            (ffPrep inputs).2.2.get? j = some pd →
            ∃ m bs, t = FVal.dict m ∧ dictGet m "boxes" = some (FVal.boxes bs) ∧
              targets2.get? j = some (FVal.dict [("target_boxes",
                FVal.boxes (bs.map (transformBox sc pd.1 pd.2)))]))) :=
  ⟨rfl, C8_fastface_collate ffPrep ffSamples ffOut rfl⟩


/-- C7 counterexample: the default datamodule builder of the
`keypoint_detection` CLI does not accept a backbone name — its named
parameters are `val_split`, `image_size` and `parser`, and backbone is not a
data-module keyword — so "each CLI entry point uses a default datamodule
builder that accepts a backbone name" fails at `keypoint_detection`. -/
theorem C7_from_biwi_rejects_backbone : from_biwi_sig.accepts "backbone" = false := by
  decide


/-- C7 (amended): `question_answering`'s builder accepts a backbone name,
batch size, worker count and transform keyword options, while
`keypoint_detection`'s accepts `val_split`, `image_size`, `parser` and — via
its data-module kwargs — batch size and worker count, but no backbone name;
both CLI entry points download a fixed dataset archive via HTTP, construct a
data module, run training through the externally supplied trainer, and
afterwards always save a checkpoint to the fixed paths
`keypoint_detection_model.pt` / `question_answering_model.pt`. -/
theorem C7_cli_behaviour :
    (from_squad_sig.accepts "backbone" = true ∧
     from_squad_sig.accepts "batch_size" = true ∧
     from_squad_sig.accepts "num_workers" = true ∧
     from_squad_sig.accepts "max_answer_length" = true) ∧
    (from_biwi_sig.accepts "val_split" = true ∧
     from_biwi_sig.accepts "image_size" = true ∧
     from_biwi_sig.accepts "parser" = true ∧
     from_biwi_sig.accepts "batch_size" = true ∧
     from_biwi_sig.accepts "num_workers" = true ∧
     from_biwi_sig.accepts "backbone" = false) ∧
    (keypoint_detection_trace =
      [CLIEffect.download "icedata.biwi.load_data",
       CLIEffect.buildDataModule "KeypointDetectionData.from_folders",
       CLIEffect.fit,
       CLIEffect.saveCheckpoint "keypoint_detection_model.pt"] ∧
     question_answering_trace =
      [CLIEffect.download "https://pl-flash-data.s3.amazonaws.com/squad_tiny.zip",
       CLIEffect.buildDataModule "QuestionAnsweringData.from_squad_v2",
       CLIEffect.fit,
       CLIEffect.saveCheckpoint "question_answering_model.pt"] ∧
     keypoint_detection_trace.getLast? =
       some (CLIEffect.saveCheckpoint "keypoint_detection_model.pt") ∧
     question_answering_trace.getLast? =
       some (CLIEffect.saveCheckpoint "question_answering_model.pt")) := by
  refine ⟨⟨?_, ?_, ?_, ?_⟩, ⟨?_, ?_, ?_, ?_, ?_, ?_⟩, ⟨rfl, rfl, rfl, rfl⟩⟩ <;> decide
